import Mathlib

/-!
Shallow embedding of the `python-agents` service (virtual-ppo-ppm repository)
and verification of its specification claims.

The Python sources are translated function-by-function:

* `agents/types.py`        → the enumerations and record structures below
* `agents/autonomy.py`     → `check_autonomy_gate`
* `agents/orchestrator.py` → `route_by_keywords`, `route_by_llm`, `route_message`
* `tools/mcp_client.py`    → `parse_tool_calls`, `strip_tool_blocks` (with a
                             model of Python `json.loads` and the tool-block
                             regular expression)
* `agents/loop.py`         → `run_agent_loop`, `detect_handoff`
* `knowledge/rag.py`       → `search_knowledge_base`, `retrieve_context`
* `knowledge/chunker.py`   → `chunk_text` (fuel-indexed, since the source's
                             while-loop need not terminate)
* `main.py` (`agent_chat`) → `agent_chat` (handoff control flow)

Machine-level conventions: Python strings are modelled as Lean `String`
(operated on through `String.data : List Char`, which the kernel reduces);
Python floats that only ever hold small exact ratios (relevance scores) are
modelled as `ℚ` — for the values that occur (m / n with m ≤ n ≤ a few dozen)
IEEE double division is exact enough that all comparisons agree with ℚ;
Python exceptions are modelled with `Except PyExc`.
-/

/-- PyExc models the Python exception classes that the translated code can
raise or catch.  `httpError` stands for the `httpx` transport/status errors
raised by provider calls; they are none of the caught classes.
`validationError` stands for the exception that aborts a tool-call branch
whose payload has the wrong shape for the pydantic record constructors
(`ToolExecution`/`PendingAction` reject a non-string `tool_name` or
non-mapping arguments; for some argument shapes the Tool Invoker's own
`arguments.get` raises `AttributeError` a moment earlier) — every such call
aborts the run before appending anything, and no code under test
distinguishes these classes. -/
inductive PyExc where
  | valueError
  | keyError
  | typeError
  | jsonDecodeError
  | httpError
  | validationError
  deriving DecidableEq, Repr

/-- AgentId from `agents/types.py`: the closed set of agent identities. -/
inductive AgentId where
  | strategy
  | discovery
  | risk
  | communications
  | advisor
  | thinker
  deriving DecidableEq, Repr

/-- The `.value` string of each AgentId enum member. -/
def AgentId.value : AgentId → String
  | .strategy => "strategy"
  | .discovery => "discovery"
  | .risk => "risk"
  | .communications => "communications"
  | .advisor => "advisor"
  | .thinker => "thinker"

/-- Models the Python constructor call `AgentId(s)`: `some` the member whose
value is `s`, `none` when Python would raise `ValueError`. -/
def AgentId.ofString? (s : String) : Option AgentId :=
  if s = "strategy" then some .strategy
  else if s = "discovery" then some .discovery
  else if s = "risk" then some .risk
  else if s = "communications" then some .communications
  else if s = "advisor" then some .advisor
  else if s = "thinker" then some .thinker
  else none

/-- AutonomyLevel from `agents/types.py`. -/
inductive AutonomyLevel where
  | full
  | oversight
  | advisory
  | manual
  deriving DecidableEq, Repr

/-- The `.value` string of each AutonomyLevel enum member. -/
def AutonomyLevel.value : AutonomyLevel → String
  | .full => "full"
  | .oversight => "oversight"
  | .advisory => "advisory"
  | .manual => "manual"

/-- AutonomyGateResult from `agents/types.py`. -/
inductive AutonomyGateResult where
  | execute
  | gate
  | block
  deriving DecidableEq, Repr

/-- `READ_ONLY_TOOLS` from `tools/mcp_client.py` (a frozenset in the source;
order is irrelevant, membership is all that is used). -/
def READ_ONLY_TOOLS : List String :=
  ["jira_search_issues", "jira_get_issue", "confluence_search"]

/-- `TOOL_AUTONOMY_OVERRIDES` from `agents/autonomy.py`. -/
def TOOL_AUTONOMY_OVERRIDES : List (String × String) :=
  [("email_send", "auto_send_emails"),
   ("jira_create_issue", "auto_create_jira_stories")]

/-- Models the dict literal `prefs` and `prefs.get(override_key, False)` in
`check_autonomy_gate` (`agents/autonomy.py`, lines 47-51). -/
def prefsGet (key : String) (auto_send_emails auto_create_jira_stories : Bool) : Bool :=
  if key = "auto_send_emails" then auto_send_emails
  else if key = "auto_create_jira_stories" then auto_create_jira_stories
  else false

/-- `check_autonomy_gate` from `agents/autonomy.py` lines 19-56, translated
clause by clause in source order (first match wins).  The source's
`if override_key:` truthiness test is modelled by the `Option` match: every
value in `TOOL_AUTONOMY_OVERRIDES` is a non-empty string, hence truthy. -/
def check_autonomy_gate (tool_name : String) (autonomy_level : AutonomyLevel)
    (auto_send_emails : Bool := false) (auto_create_jira_stories : Bool := false) :
    AutonomyGateResult :=
  if autonomy_level = .manual then .block
  else if autonomy_level = .advisory then .block
  else if tool_name ∈ READ_ONLY_TOOLS then .execute
  else if autonomy_level = .full then .execute
  else if autonomy_level = .oversight then
    match TOOL_AUTONOMY_OVERRIDES.lookup tool_name with
    | some key =>
        if prefsGet key auto_send_emails auto_create_jira_stories then .execute
        else .gate
    | none => .gate
  else .block

/-- C1: `check_autonomy_gate` is a total deterministic function (it is a Lean
function of exactly its inputs) satisfying the spec's ordered rules: Manual
and Advisory block every tool; read-only tools execute under Full and
Oversight; Full executes everything; under Oversight a non-read-only tool
executes iff it is `email_send` with `auto_send_emails = true` or
`jira_create_issue` with `auto_create_jira_stories = true`, and otherwise is
gated. -/
theorem autonomy_gate_spec :
    (∀ t a b, check_autonomy_gate t .manual a b = .block) ∧
    (∀ t a b, check_autonomy_gate t .advisory a b = .block) ∧
    (∀ t l a b, t ∈ READ_ONLY_TOOLS → (l = AutonomyLevel.full ∨ l = AutonomyLevel.oversight) →
      check_autonomy_gate t l a b = .execute) ∧
    (∀ t a b, check_autonomy_gate t .full a b = .execute) ∧
    (∀ t a b, t ∉ READ_ONLY_TOOLS →
      (check_autonomy_gate t .oversight a b = .execute ↔
        ((t = "email_send" ∧ a = true) ∨ (t = "jira_create_issue" ∧ b = true))) ∧
      (check_autonomy_gate t .oversight a b = .execute ∨
        check_autonomy_gate t .oversight a b = .gate)) := by
  refine ⟨fun t a b => rfl, fun t a b => rfl, ?_, ?_, ?_⟩
  · intro t l a b ht hl
    rcases hl with h | h <;> subst h <;>
      simp [check_autonomy_gate, ht]
  · intro t a b
    by_cases ht : t ∈ READ_ONLY_TOOLS <;> simp [check_autonomy_gate, ht]
  · intro t a b ht
    by_cases h1 : t = "email_send"
    · subst h1
      refine ⟨?_, ?_⟩
      · cases a <;> simp [check_autonomy_gate, ht, List.lookup, prefsGet]
      · cases a <;> simp [check_autonomy_gate, ht, List.lookup, prefsGet]
    · by_cases h2 : t = "jira_create_issue"
      · subst h2
        refine ⟨?_, ?_⟩
        · cases b <;> simp [check_autonomy_gate, ht, List.lookup, prefsGet]
        · cases b <;> simp [check_autonomy_gate, ht, List.lookup, prefsGet]
      · have hlk : TOOL_AUTONOMY_OVERRIDES.lookup t = none := by
          have e1 : (t == "email_send") = false := beq_eq_false_iff_ne.mpr h1
          have e2 : (t == "jira_create_issue") = false := beq_eq_false_iff_ne.mpr h2
          simp [TOOL_AUTONOMY_OVERRIDES, List.lookup, e1, e2]
        refine ⟨?_, ?_⟩
        · simp [check_autonomy_gate, ht, hlk, h1, h2]
        · simp [check_autonomy_gate, ht, hlk]

/-- Witness for C1: instantiates the read-only clause at the concrete tool
`jira_get_issue` under Oversight. -/
theorem autonomy_gate_spec_witness :
    "jira_get_issue" ∈ READ_ONLY_TOOLS ∧
    check_autonomy_gate "jira_get_issue" .oversight false false = .execute :=
  ⟨by decide,
   autonomy_gate_spec.2.2.1 "jira_get_issue" .oversight false false (by decide)
     (Or.inr rfl)⟩

/-- Python whitespace class as used by `str.strip`, `str.split()` and the
regex class `\s` (ASCII range). -/
def pyIsSpace (c : Char) : Bool :=
  c = ' ' || c = '\t' || c = '\n' || c = '\r' || c = '\x0b' || c = '\x0c'

/-- Infix (contiguous-sublist) test on character lists; `listInfix n h` is
true iff `n` occurs contiguously inside `h`. -/
def listInfix (needle : List Char) : List Char → Bool
  | [] => needle.isEmpty
  | c :: rest => needle.isPrefixOf (c :: rest) || listInfix needle rest

/-- Python `needle in haystack` on strings (substring test). -/
def pyIn (needle haystack : String) : Bool :=
  listInfix needle.data haystack.data

/-- Python `str.lower()` (the sources only ever lower-case ASCII). -/
def pyLower (s : String) : String :=
  ⟨s.data.map Char.toLower⟩

/-- Python `str.strip()` with no arguments: trim whitespace on both ends. -/
def pyStrip (s : String) : String :=
  ⟨((s.data.dropWhile pyIsSpace).reverse.dropWhile pyIsSpace).reverse⟩

/-- Python `str.rstrip(".")`: drop every trailing dot. -/
def pyRstripDots (s : String) : String :=
  ⟨(s.data.reverse.dropWhile (· = '.')).reverse⟩

/-- `_KEYWORD_RULES` from `agents/orchestrator.py` lines 19-65, in declared
order (checked in order, first match wins). -/
def KEYWORD_RULES : List (AgentId × List String) :=
  [(.thinker,
    ["big picture", "what do we know", "summarize everything", "full analysis",
     "where does this come from", "trace", "cross-reference", "investigate",
     "connect the dots", "all sources", "comprehensive view", "deep dive",
     "source map", "what\x27s missing"]),
   (.risk,
    ["risk", "blocker", "blocked", "mitigation", "threat", "vulnerability",
     "escalat", "severity", "probability", "impact analysis", "fmea",
     "risk matrix", "what could go wrong"]),
   (.communications,
    ["email", "send message", "slack", "notify", "stakeholder update",
     "meeting summary", "announcement", "newsletter", "status update",
     "post to", "draft email", "send to", "share with"]),
   (.discovery,
    ["discovery", "research", "market", "competitor", "opportunity",
     "customer need", "jobs to be done", "jtbd", "user interview",
     "hypothesis", "experiment", "validate", "porter"]),
   (.strategy,
    ["prioriti", "roadmap", "backlog", "okr", "kpi", "strategy",
     "sprint", "epic", "story", "rice", "wsjf", "plan", "quarter",
     "initiative", "feature", "requirement", "scope", "timeline",
     "jira", "create issue", "create ticket", "create story",
     "dependency", "alignment"]),
   (.advisor,
    ["best practice", "advice", "recommend", "how should", "what\x27s the best way",
     "methodology", "framework", "agile", "scrum", "safe", "kanban", "lean",
     "architecture", "pattern", "approach", "opinion", "guidance",
     "industry standard", "benchmark"])]

/-- Scan rules in declared order, returning the agent of the first rule any
of whose phrases occurs in the (already lower-cased) message; models the
nested for-loops of `route_by_keywords` (returning on the first matching
phrase of a rule is observationally `List.any` over that rule's phrases). -/
def scanRules (lower : String) : List (AgentId × List String) → Option AgentId
  | [] => none
  | (aid, kws) :: rest =>
      if kws.any (fun kw => pyIn kw lower) then some aid else scanRules lower rest

/-- `route_by_keywords` from `agents/orchestrator.py` lines 68-80. -/
def route_by_keywords (message : String) : Option AgentId :=
  scanRules (pyLower message) KEYWORD_RULES

/-- `route_by_llm` from `agents/orchestrator.py` lines 104-118.  The single
LLM call is a collaborator (network); its outcome — the returned text, or the
exception it raised — is the `llmOutcome` parameter.  The `try` block catches
exactly `(ValueError, KeyError)`; `AgentId(agent_name)` raising `ValueError`
on an unknown token is the `none` branch of `AgentId.ofString?`. -/
def route_by_llm : Except PyExc String → Except PyExc AgentId
  | .ok result =>
      match AgentId.ofString? (pyRstripDots (pyLower (pyStrip result))) with
      | some a => .ok a
      | none => .ok .strategy
  | .error e =>
      if e = .valueError ∨ e = .keyError then .ok .strategy else .error e

/-- `route_message` from `agents/orchestrator.py` lines 126-148: explicit
agent first, then keyword tier, then the LLM tier. -/
def route_message (message : String) (llmOutcome : Except PyExc String)
    (explicit_agent : Option AgentId) : Except PyExc AgentId :=
  match explicit_agent with
  | some a => .ok a
  | none =>
      match route_by_keywords message with
      | some a => .ok a
      | none => route_by_llm llmOutcome

/-- A rule used as `List.getD` default; never selected because indices are
bounded by the rule-list length in every statement that uses it. -/
def defaultRule : AgentId × List String := (.strategy, [])

theorem scanRules_first (lower : String) :
    ∀ (rules : List (AgentId × List String)) (k : Nat), k < rules.length →
      (rules.getD k defaultRule).2.any (fun kw => pyIn kw lower) = true →
      (∀ j, j < k →
        (rules.getD j defaultRule).2.any (fun kw => pyIn kw lower) = false) →
      scanRules lower rules = some (rules.getD k defaultRule).1 := by
  intro rules
  induction rules with
  | nil => intro k hk; exact absurd hk (by simp)
  | cons r rest ih =>
      intro k hk hhit hmiss
      cases k with
      | zero =>
          cases r with
          | mk aid kws =>
              simp only [List.getD_cons_zero] at hhit ⊢
              simp [scanRules, hhit]
      | succ k =>
          have h0 := hmiss 0 (Nat.succ_pos k)
          cases r with
          | mk aid kws =>
              simp only [List.getD_cons_zero] at h0
              simp only [List.getD_cons_succ] at hhit ⊢
              simp only [scanRules, h0, Bool.false_eq_true, if_false]
              exact ih k (Nat.lt_of_succ_lt_succ hk) hhit
                (fun j hj => hmiss (j + 1) (Nat.succ_lt_succ hj))

/-- C3: `route_message` with a present explicit agent returns it for every
message and every LLM outcome (so no keyword scan or model call can affect
it); with no explicit agent, a message whose lower-casing contains a phrase
of rule `k` and no phrase of any rule before `k` is routed to rule `k`'s
agent for every LLM outcome (hence deterministically and without a model
call). -/
theorem route_message_priority :
    (∀ msg o a, route_message msg o (some a) = .ok a) ∧
    (∀ msg o k, k < KEYWORD_RULES.length →
      (KEYWORD_RULES.getD k defaultRule).2.any (fun kw => pyIn kw (pyLower msg)) = true →
      (∀ j, j < k →
        (KEYWORD_RULES.getD j defaultRule).2.any
          (fun kw => pyIn kw (pyLower msg)) = false) →
      route_message msg o none = .ok (KEYWORD_RULES.getD k defaultRule).1) := by
  constructor
  · intro msg o a; rfl
  · intro msg o k hk hhit hmiss
    have h := scanRules_first (pyLower msg) KEYWORD_RULES k hk hhit hmiss
    simp [route_message, route_by_keywords, h]

/-- Witness for C3 (spec scenario C): "what's our roadmap for Q3" matches the
strategy rule (index 4, phrase "roadmap") and no earlier rule, so it is
routed to strategy regardless of the LLM outcome. -/
theorem route_message_priority_witness :
    (KEYWORD_RULES.getD 4 defaultRule).2.any
      (fun kw => pyIn kw (pyLower "what\x27s our roadmap for Q3")) = true ∧
    route_message "what\x27s our roadmap for Q3" (.error .httpError) none =
      .ok AgentId.strategy :=
  ⟨by decide,
   route_message_priority.2 "what\x27s our roadmap for Q3" (.error .httpError) 4
     (by decide) (by decide)
     (by intro j hj
         have hj4 : j = 0 ∨ j = 1 ∨ j = 2 ∨ j = 3 := by omega
         rcases hj4 with h | h | h | h <;> subst h <;> decide)⟩

/-- Counterexample for C4: a provider HTTP/transport error (an `httpx` error,
which is neither `ValueError` nor `KeyError`) is not caught by
`route_by_llm`'s `except (ValueError, KeyError)` clause and propagates to the
caller instead of yielding the default agent. -/
theorem route_by_llm_propagates_http_error :
    route_by_llm (.error .httpError) = .error PyExc.httpError ∧
    route_by_llm (.error .httpError) ≠ .ok AgentId.strategy :=
  ⟨rfl, fun h => by simp [route_by_llm] at h⟩

/-- C4 (amended): `route_by_llm` returns the fixed default agent (strategy)
whenever the provider call raises `ValueError` or `KeyError` (unsupported
provider, empty content) or the returned token fails to parse as a legal
agent identity, and never errors on any returned token; an exception of any
other class (e.g. an `httpx` transport or HTTP-status error) propagates. -/
theorem route_by_llm_fallback :
    (∀ s, ∃ a, route_by_llm (.ok s) = .ok a) ∧
    (∀ s, AgentId.ofString? (pyRstripDots (pyLower (pyStrip s))) = none →
      route_by_llm (.ok s) = .ok .strategy) ∧
    (∀ s a, AgentId.ofString? (pyRstripDots (pyLower (pyStrip s))) = some a →
      route_by_llm (.ok s) = .ok a) ∧
    route_by_llm (.error .valueError) = .ok .strategy ∧
    route_by_llm (.error .keyError) = .ok .strategy ∧
    (∀ e, e ≠ PyExc.valueError → e ≠ PyExc.keyError →
      route_by_llm (.error e) = .error e) := by
  refine ⟨?_, ?_, ?_, rfl, rfl, ?_⟩
  · intro s
    cases h : AgentId.ofString? (pyRstripDots (pyLower (pyStrip s))) with
    | none => exact ⟨.strategy, by simp [route_by_llm, h]⟩
    | some a => exact ⟨a, by simp [route_by_llm, h]⟩
  · intro s h; simp [route_by_llm, h]
  · intro s a h; simp [route_by_llm, h]
  · intro e h1 h2
    simp [route_by_llm, h1, h2]

/-- Witness for C4's amended theorem: the token " Risk. " normalizes to
"risk" and is routed to the risk agent; the token "banana" does not parse and
falls back to strategy. -/
theorem route_by_llm_fallback_witness :
    AgentId.ofString? (pyRstripDots (pyLower (pyStrip " Risk. "))) = some .risk ∧
    route_by_llm (.ok " Risk. ") = .ok AgentId.risk ∧
    route_by_llm (.ok "banana") = .ok AgentId.strategy :=
  ⟨by decide,
   route_by_llm_fallback.2.2.1 " Risk. " .risk (by decide),
   route_by_llm_fallback.2.1 "banana" (by decide)⟩

/-- Python `str.split()` with no arguments: split on runs of whitespace,
dropping empty pieces.  The worker carries the current word reversed. -/
def splitWordsAux : List Char → List Char → List String
  | [], cur => if cur.isEmpty then [] else [⟨cur.reverse⟩]
  | c :: rest, cur =>
      if pyIsSpace c then
        if cur.isEmpty then splitWordsAux rest []
        else (⟨cur.reverse⟩ : String) :: splitWordsAux rest []
      else splitWordsAux rest (c :: cur)

/-- Python `text.split()`. -/
def pyWords (s : String) : List String :=
  splitWordsAux s.data []

/-- Clamp an integer index for Python slicing over a list of length `n`. -/
def pyIdx (n : Nat) (i : Int) : Nat :=
  if i < 0 then (max (n + i) 0).toNat else min i.toNat n

/-- Python `l[a:b]` slicing with integer (possibly negative) bounds. -/
def pySlice {α : Type} (l : List α) (a b : Int) : List α :=
  (l.take (pyIdx l.length b)).drop (pyIdx l.length a)

/-- Python `" ".join(ws)`. -/
def joinSpace : List String → String
  | [] => ""
  | [w] => w
  | w :: rest => w ++ " " ++ joinSpace rest

/-- The while-loop of `chunk_text` (`knowledge/chunker.py` lines 29-36),
indexed by fuel because the source loop has no termination guarantee: `none`
means the fuel ran out with the loop still running, so the source loop runs
for more than `fuel` iterations on this input.  Per iteration the loop emits
the stripped chunk `words[start : start+chunk_size]` when non-empty and
advances `start` by `chunk_size - overlap` — with no clamp. -/
def chunkLoop (words : List String) (chunk_size overlap : Nat) :
    Nat → Int → List String → Option (List String)
  | 0, start, acc => if start < (words.length : Int) then none else some acc
  | fuel + 1, start, acc =>
      if start < (words.length : Int) then
        chunkLoop words chunk_size overlap fuel
          (start + ((chunk_size : Int) - (overlap : Int)))
          (if pyStrip (joinSpace (pySlice words start (start + (chunk_size : Int)))) ≠ ""
           then acc ++ [pyStrip (joinSpace (pySlice words start (start + (chunk_size : Int))))]
           else acc)
      else some acc

/-- `chunk_text` from `knowledge/chunker.py` lines 11-38 (fuel-indexed). -/
def chunk_text (text : String) (chunk_size overlap : Nat) (fuel : Nat) :
    Option (List String) :=
  if (pyWords text).length ≤ chunk_size then
    if pyStrip text ≠ "" then some [pyStrip text] else some []
  else chunkLoop (pyWords text) chunk_size overlap fuel 0 []

/-- The source's `chunk_text` terminates on this input iff some fuel
suffices. -/
def ChunkTextTerminates (text : String) (chunk_size overlap : Nat) : Prop :=
  ∃ fuel, (chunk_text text chunk_size overlap fuel).isSome

theorem chunkLoop_stuck_aux :
    ∀ (fuel : Nat) (acc : List String),
      chunkLoop (pyWords "a b c") 2 2 fuel 0 acc = none := by
  have hcond : ((0 : Int) < ((pyWords "a b c").length : Int)) := by decide
  intro fuel
  induction fuel with
  | zero => intro acc; simp only [chunkLoop, if_pos hcond]
  | succ fuel ih =>
      intro acc
      simp only [chunkLoop, if_pos hcond]
      norm_num
      exact ih _

/-- Counterexample for C9: the source does not clamp the advance; with
`overlap = chunk_size = 2` and a three-word text the loop never makes
progress, so `chunk_text` does not terminate — the claim's "terminates for
every chunk_size/overlap configuration" is false. -/
theorem chunk_text_diverges_at_equal_overlap :
    ¬ ChunkTextTerminates "a b c" 2 2 := by
  rintro ⟨fuel, hf⟩
  have hlen : ¬ ((pyWords "a b c").length ≤ 2) := by decide
  rw [chunk_text, if_neg hlen, chunkLoop_stuck_aux fuel []] at hf
  exact Bool.false_ne_true hf

theorem chunkLoop_isSome (words : List String) (cs ov : Nat) (h : ov < cs) :
    ∀ (fuel : Nat) (start : Int) (acc : List String),
      (words.length : Int) ≤ start + (fuel : Int) →
      (chunkLoop words cs ov fuel start acc).isSome := by
  intro fuel
  induction fuel with
  | zero =>
      intro start acc hle
      simp only [Nat.cast_zero, add_zero] at hle
      simp [chunkLoop, not_lt.mpr hle]
  | succ fuel ih =>
      intro start acc hle
      by_cases hs : start < (words.length : Int)
      · simp only [chunkLoop, if_pos hs]
        apply ih
        have hadv : (1 : Int) ≤ (cs : Int) - (ov : Int) := by
          have : (ov : Int) < (cs : Int) := by exact_mod_cast h
          omega
        push_cast at hle ⊢
        omega
      · simp [chunkLoop, hs]

/-- C9 (amended): `chunk_text` terminates for every text whenever
`overlap < chunk_size` — the advance `chunk_size - overlap` is then at least
one word per step; the source has no `max(1, ...)` clamp, and when
`overlap = chunk_size` on a text of more than `chunk_size` words the loop
never terminates (see the counterexample). -/
theorem chunk_text_terminates_of_overlap_lt (text : String) (cs ov : Nat)
    (h : ov < cs) : ChunkTextTerminates text cs ov := by
  by_cases hlen : (pyWords text).length ≤ cs
  · refine ⟨0, ?_⟩
    rw [chunk_text, if_pos hlen]
    by_cases ht : pyStrip text ≠ "" <;> simp [ht]
  · refine ⟨(pyWords text).length, ?_⟩
    rw [chunk_text, if_neg hlen]
    exact chunkLoop_isSome (pyWords text) cs ov h (pyWords text).length 0 []
      (by omega)

/-- Witness for C9's amended theorem: with chunk size 2 and overlap 1 the
five-word text "a b c d e" is chunked with some finite fuel. -/
theorem chunk_text_terminates_witness :
    1 < 2 ∧ ChunkTextTerminates "a b c d e" 2 1 :=
  ⟨by decide, chunk_text_terminates_of_overlap_lt "a b c d e" 2 1 (by decide)⟩

/-- A Python value decoded by `json.loads`: numbers keep their lexeme (no
claim inspects numeric values, only the value's Python type matters). -/
inductive Json where
  | null
  | bool (b : Bool)
  | num (lexeme : String)
  | str (s : String)
  | arr (elems : List Json)
  | obj (entries : List (String × Json))

/-- The double-quote character (written via its code point). -/
def quoteChar : Char := Char.ofNat 34

/-- The backslash character. -/
def backslashChar : Char := Char.ofNat 92

/-- Opening curly brace. -/
def lbraceChar : Char := '\x7b'

/-- Closing curly brace. -/
def rbraceChar : Char := '\x7d'

/-- JSON inter-token whitespace as accepted by Python's json module. -/
def jsonWs (c : Char) : Bool :=
  c = ' ' || c = '\t' || c = '\n' || c = '\r'

/-- Hexadecimal digit value. -/
def hexVal? (c : Char) : Option Nat :=
  if '0' ≤ c ∧ c ≤ '9' then some (c.toNat - '0'.toNat)
  else if 'a' ≤ c ∧ c ≤ 'f' then some (c.toNat - 'a'.toNat + 10)
  else if 'A' ≤ c ∧ c ≤ 'F' then some (c.toNat - 'A'.toNat + 10)
  else none

/-- Body of a JSON string after the opening quote: returns the decoded
characters and the remainder after the closing quote; `none` on an
unterminated string, a bad escape, or an embedded control character (Python's
strict mode rejects those). -/
def parseStrBody : List Char → Option (List Char × List Char)
  | [] => none
  | c :: rest =>
    if c = quoteChar then some ([], rest)
    else if c = backslashChar then
      match rest with
      | [] => none
      | e :: rest2 =>
        if e = quoteChar then
          (fun p => (quoteChar :: p.1, p.2)) <$> parseStrBody rest2
        else if e = backslashChar then
          (fun p => (backslashChar :: p.1, p.2)) <$> parseStrBody rest2
        else if e = '/' then (fun p => ('/' :: p.1, p.2)) <$> parseStrBody rest2
        else if e = 'b' then (fun p => ('\x08' :: p.1, p.2)) <$> parseStrBody rest2
        else if e = 'f' then (fun p => ('\x0c' :: p.1, p.2)) <$> parseStrBody rest2
        else if e = 'n' then (fun p => ('\n' :: p.1, p.2)) <$> parseStrBody rest2
        else if e = 'r' then (fun p => ('\r' :: p.1, p.2)) <$> parseStrBody rest2
        else if e = 't' then (fun p => ('\t' :: p.1, p.2)) <$> parseStrBody rest2
        else if e = 'u' then
          match rest2 with
          | h1 :: h2 :: h3 :: h4 :: rest6 =>
            match hexVal? h1, hexVal? h2, hexVal? h3, hexVal? h4 with
            | some a, some b, some c2, some d =>
                (fun p => (Char.ofNat (((a * 16 + b) * 16 + c2) * 16 + d) :: p.1, p.2)) <$>
                  parseStrBody rest6
            | _, _, _, _ => none
          | _ => none
        else none
    else if c.toNat < 32 then none
    else (fun p => (c :: p.1, p.2)) <$> parseStrBody rest

/-- A JSON number lexeme (`-? (0 | [1-9][0-9]*) frac? exp?`): returns the
lexeme and the remainder, `none` if no valid number starts here. -/
def parseNumLex (cs : List Char) : Option (List Char × List Char) :=
  let (sign, cs1) :=
    match cs with
    | c :: rest => if c = '-' then ([c], rest) else ([], cs)
    | [] => ([], cs)
  match cs1 with
  | [] => none
  | d :: _ =>
    if ¬ d.isDigit then none
    else
      let (intPart, cs2) :=
        if d = '0' then ([d], cs1.drop 1)
        else (cs1.takeWhile Char.isDigit, cs1.dropWhile Char.isDigit)
      let (fracPart, cs3) :=
        match cs2 with
        | p :: frest =>
          if p = '.' then
            let ds := frest.takeWhile Char.isDigit
            if ds.isEmpty then ([p], frest)  -- marked invalid below
            else (p :: ds, frest.dropWhile Char.isDigit)
          else ([], cs2)
        | [] => ([], cs2)
      if fracPart = ['.'] then none
      else
        match cs3 with
        | e :: erest =>
          if e = 'e' ∨ e = 'E' then
            let (esign, cs4) :=
              match erest with
              | s :: srest => if s = '+' ∨ s = '-' then ([s], srest) else ([], erest)
              | [] => ([], erest)
            let ds := cs4.takeWhile Char.isDigit
            if ds.isEmpty then none
            else some (sign ++ intPart ++ fracPart ++ e :: esign ++ ds,
                       cs4.dropWhile Char.isDigit)
          else some (sign ++ intPart ++ fracPart, cs3)
        | [] => some (sign ++ intPart ++ fracPart, cs3)

/-- Left-to-right Python dict insertion: an existing key keeps its position
and gets the new value, a new key is appended. -/
def insertKV : List (String × Json) → String → Json → List (String × Json)
  | [], k, v => [(k, v)]
  | (k', v') :: rest, k, v =>
      if k' = k then (k', v) :: rest else (k', v') :: insertKV rest k v

mutual

/-- Parse one JSON value (leading whitespace allowed); fuel bounds recursion
depth and is in practice the input length. -/
def parseVal : Nat → List Char → Option (Json × List Char)
  | 0, _ => none
  | fuel + 1, cs0 =>
    let cs := cs0.dropWhile jsonWs
    match cs with
    | [] => none
    | c :: rest =>
      if c = lbraceChar then
        let cs1 := rest.dropWhile jsonWs
        match cs1 with
        | d :: rest1 =>
          if d = rbraceChar then some (.obj [], rest1)
          else parseMembers fuel cs1 []
        | [] => none
      else if c = '[' then
        let cs1 := rest.dropWhile jsonWs
        match cs1 with
        | d :: rest1 =>
          if d = ']' then some (.arr [], rest1)
          else parseElems fuel cs1 []
        | [] => none
      else if c = quoteChar then
        (fun p => (Json.str ⟨p.1⟩, p.2)) <$> parseStrBody rest
      else if ("true".data).isPrefixOf cs then some (.bool true, cs.drop 4)
      else if ("false".data).isPrefixOf cs then some (.bool false, cs.drop 5)
      else if ("null".data).isPrefixOf cs then some (.null, cs.drop 4)
      else if ("NaN".data).isPrefixOf cs then some (.num "NaN", cs.drop 3)
      else if ("Infinity".data).isPrefixOf cs then some (.num "Infinity", cs.drop 8)
      else if ("-Infinity".data).isPrefixOf cs then some (.num "-Infinity", cs.drop 9)
      else
        (fun p => (Json.num ⟨p.1⟩, p.2)) <$> parseNumLex cs

/-- Parse the members of an object, positioned at a key (whitespace already
skipped); accumulates with Python-dict insertion semantics. -/
def parseMembers : Nat → List Char → List (String × Json) → Option (Json × List Char)
  | 0, _, _ => none
  | fuel + 1, cs, acc =>
    match cs with
    | c :: rest =>
      if c = quoteChar then
        match parseStrBody rest with
        | none => none
        | some (key, cs1) =>
          match cs1.dropWhile jsonWs with
          | colon :: cs2 =>
            if colon = ':' then
              match parseVal fuel cs2 with
              | none => none
              | some (v, cs3) =>
                let acc' := insertKV acc ⟨key⟩ v
                match cs3.dropWhile jsonWs with
                | sep :: cs4 =>
                  if sep = ',' then parseMembers fuel (cs4.dropWhile jsonWs) acc'
                  else if sep = rbraceChar then some (.obj acc', cs4)
                  else none
                | [] => none
            else none
          | [] => none
      else none
    | [] => none

/-- Parse the elements of an array, positioned at a value (whitespace already
skipped). -/
def parseElems : Nat → List Char → List Json → Option (Json × List Char)
  | 0, _, _ => none
  | fuel + 1, cs, acc =>
    match parseVal fuel cs with
    | none => none
    | some (v, cs1) =>
      match cs1.dropWhile jsonWs with
      | sep :: cs2 =>
        if sep = ',' then parseElems fuel cs2 (acc ++ [v])
        else if sep = ']' then some (.arr (acc ++ [v]), cs2)
        else none
      | [] => none

end

/-- Python `json.loads`: parse one value surrounded by optional whitespace,
requiring the whole input to be consumed; `none` models `JSONDecodeError`. -/
def json_loads (s : String) : Option Json :=
  match parseVal (s.data.length + 1) s.data with
  | some (v, rest) => if (rest.dropWhile jsonWs).isEmpty then some v else none
  | none => none

/-- The literal `\x60\x60\x60tool` opening tag of `TOOL_BLOCK_RE`
(`tools/mcp_client.py` line 46). -/
def fenceTag : List Char := "```tool".data

/-- A closing code fence. -/
def fenceChars : List Char := "```".data

/-- Scan forward for the next closing fence; returns the (lazily minimal)
captured characters before it and the remainder after it, or `none` when no
closing fence exists (the regex then fails to match at this start). -/
def splitAtFence : List Char → Option (List Char × List Char)
  | [] => none
  | c :: rest =>
    if fenceChars.isPrefixOf (c :: rest) then some ([], rest.drop 2)
    else (fun p => (c :: p.1, p.2)) <$> splitAtFence rest

/-- All captures of `TOOL_BLOCK_RE.finditer` in order: at each position try to
match `\x60\x60\x60tool\s*\n?([\s\S]*?)\x60\x60\x60`; on a match, emit the
capture and resume after the closing fence, otherwise advance one character.
The greedy `\s*` absorbs all whitespace after the tag (so the optional `\n`
matches nothing), and the lazy capture ends at the first following fence.
Fuel is the input length: every step consumes at least one character. -/
def findToolBlocksAux : Nat → List Char → List String
  | 0, _ => []
  | fuel + 1, cs =>
    match cs with
    | [] => []
    | _ :: rest =>
      if fenceTag.isPrefixOf cs then
        match splitAtFence ((cs.drop 7).dropWhile pyIsSpace) with
        | some (cap, rem) => (⟨cap⟩ : String) :: findToolBlocksAux fuel rem
        | none => findToolBlocksAux fuel rest
      else findToolBlocksAux fuel rest

/-- The list of tool-block captures of a response string. -/
def toolBlockMatches (response : String) : List String :=
  findToolBlocksAux response.data.length response.data

/-- Python `needle in value` on a decoded JSON value: key membership for a
dict, element equality for a list, substring for a str — and a `TypeError`
for `None`, booleans and numbers, which are not containers. -/
def pyInJson (needle : String) : Json → Except PyExc Bool
  | .obj kvs => .ok (kvs.any (fun kv => kv.1 = needle))
  | .arr xs =>
      .ok (xs.any (fun x => match x with | .str s => s = needle | _ => false))
  | .str s => .ok (listInfix needle.data s.data)
  | .null => .error .typeError
  | .bool _ => .error .typeError
  | .num _ => .error .typeError

/-- The per-block body of `parse_tool_calls` folded over the matches: a block
whose (stripped) text fails `json.loads` is skipped (the `except` clause
catches `JSONDecodeError`); a parsed value is kept iff `"name" in parsed and
"arguments" in parsed`, where the membership test itself raises `TypeError`
on non-container payloads — an exception class the `except` clause does not
catch, so it aborts the whole call. -/
def collectCalls : List String → Except PyExc (List Json)
  | [] => .ok []
  | b :: rest =>
    match json_loads (pyStrip b) with
    | none => collectCalls rest
    | some parsed =>
      match pyInJson "name" parsed with
      | .error e => .error e
      | .ok false => collectCalls rest
      | .ok true =>
        match pyInJson "arguments" parsed with
        | .error e => .error e
        | .ok false => collectCalls rest
        | .ok true => (fun l => parsed :: l) <$> collectCalls rest

/-- `parse_tool_calls` from `tools/mcp_client.py` lines 49-59. -/
def parse_tool_calls (response : String) : Except PyExc (List Json) :=
  collectCalls (toolBlockMatches response)

/-- `strip_tool_blocks` from `tools/mcp_client.py` lines 62-64:
`TOOL_BLOCK_RE.sub("", response).strip()`. -/
def stripBlocksAux : Nat → List Char → List Char
  | 0, cs => cs
  | fuel + 1, cs =>
    match cs with
    | [] => []
    | c :: rest =>
      if fenceTag.isPrefixOf cs then
        match splitAtFence ((cs.drop 7).dropWhile pyIsSpace) with
        | some (_, rem) => stripBlocksAux fuel rem
        | none => c :: stripBlocksAux fuel rest
      else c :: stripBlocksAux fuel rest

/-- Python `strip_tool_blocks(response)`. -/
def strip_tool_blocks (response : String) : String :=
  pyStrip ⟨stripBlocksAux response.data.length response.data⟩

/-- C6 is false of the code (the claim is right about the intent, the code
has a slip): on the fenced payload `null` — valid JSON, not an object —
`"name" in parsed` is `"name" in None`, a `TypeError`, which the
`except (json.JSONDecodeError, KeyError)` clause does not catch, so
`parse_tool_calls` raises instead of silently dropping the fragment.  A
non-object payload can also be *kept*: the JSON array
`["name", "arguments"]` passes both membership tests.  A malformed-JSON
fragment alone is indeed dropped. -/
theorem parse_tool_calls_typeerror_bug :
    parse_tool_calls "```tool\nnull```" = .error PyExc.typeError ∧
    parse_tool_calls "```tool\n[\"name\", \"arguments\"]```" =
      .ok [Json.arr [Json.str "name", Json.str "arguments"]] ∧
    parse_tool_calls "```tool\nnot json```" = .ok [] := by
  refine ⟨rfl, rfl, rfl⟩

/-- RAGDocument from `agents/types.py` (relevance as exact ℚ; see header). -/
structure RAGDocument where
  source_type : String
  source_id : String
  source_name : String
  content : String
  relevance : ℚ
  deriving DecidableEq, Repr

/-- A knowledge-base document as consumed by `search_knowledge_base`
(`knowledge/rag.py`): the source reads a dict with `.get` defaults
(`source_type` defaulting to "file", `source_name` to "Unknown", `id` to "")
and decodes `content_chunks` from JSON when it arrives as a string; the
structure holds the resulting values, with `content_chunks` already the
decoded list. -/
structure KnowledgeDoc where
  id : String
  source_type : String
  source_name : String
  content_chunks : List String
  deriving DecidableEq, Repr

/-- `RAG_MAX_DOCS` from `config.py` (default 5; env override not modelled). -/
def RAG_MAX_DOCS : Nat := 5

/-- `RAG_MAX_TOKENS` from `config.py` (default 4000; env override not
modelled). -/
def RAG_MAX_TOKENS : Nat := 4000

/-- The per-chunk score of `search_knowledge_base`: the number of keywords
occurring (lower-cased) as substrings of the lower-cased chunk, divided by
`max(len(keywords), 1)`. -/
def chunkScore (keywords : List String) (chunk : String) : ℚ :=
  ((keywords.filter (fun kw => pyIn (pyLower kw) (pyLower chunk))).length : ℚ) /
    ((max keywords.length 1 : Nat) : ℚ)

/-- The best-chunk fold of `search_knowledge_base` (`knowledge/rag.py` lines
128-138): start from `best_score = 0.0, best_chunk = ""` and replace on a
strictly greater score. -/
def scoreFoldAux (keywords : List String) (best : ℚ × String) :
    List String → ℚ × String
  | [] => best
  | chunk :: rest =>
      scoreFoldAux keywords
        (if best.1 < chunkScore keywords chunk then (chunkScore keywords chunk, chunk)
         else best) rest

/-- The (best score, best chunk) pair of a document's chunk list. -/
def scoreChunksLoop (keywords : List String) (chunks : List String) : ℚ × String :=
  scoreFoldAux keywords (0, "") chunks

/-- The maximum chunk score of a document. -/
def maxChunkScore (keywords : List String) (chunks : List String) : ℚ :=
  (chunks.map (chunkScore keywords)).foldl max 0

/-- Chunk truncation in `search_knowledge_base` (lines 145-146). -/
def truncate1000 (s : String) : String :=
  if 1000 < s.data.length then (⟨s.data.take 1000⟩ : String) ++ "..." else s

/-- Stable descending insertion by score: an element goes before the first
strictly smaller score, after earlier-listed equal ones.  This models the
stable `list.sort(key=..., reverse=True)` of Python. -/
def insertScoredDesc (d : ℚ × RAGDocument) :
    List (ℚ × RAGDocument) → List (ℚ × RAGDocument)
  | [] => [d]
  | x :: xs => if x.1 ≤ d.1 then d :: x :: xs else x :: insertScoredDesc d xs

/-- Stable descending sort of scored documents (Python `sort` is stable). -/
def sortScoredDesc : List (ℚ × RAGDocument) → List (ℚ × RAGDocument)
  | [] => []
  | d :: rest => insertScoredDesc d (sortScoredDesc rest)

/-- `search_knowledge_base` from `knowledge/rag.py` lines 105-158. -/
def search_knowledge_base (keywords : List String) (documents : List KnowledgeDoc) :
    List RAGDocument :=
  if documents.isEmpty ∨ keywords.isEmpty then []
  else
    let results : List (ℚ × RAGDocument) :=
      documents.filterMap (fun doc =>
        let best := scoreChunksLoop keywords doc.content_chunks
        if 0 < best.1 then
          some (best.1,
            { source_type := doc.source_type
              source_id := doc.id
              source_name := doc.source_name
              content := truncate1000 best.2
              relevance := best.1 })
        else none)
    ((sortScoredDesc results).take RAG_MAX_DOCS).map Prod.snd

/-- Stable descending insertion of a document by relevance (for the final
sort in `retrieve_context`). -/
def insertDocDesc (d : RAGDocument) : List RAGDocument → List RAGDocument
  | [] => [d]
  | x :: xs => if x.relevance ≤ d.relevance then d :: x :: xs else x :: insertDocDesc d xs

/-- Stable descending sort of documents by relevance. -/
def sortDocsDesc : List RAGDocument → List RAGDocument
  | [] => []
  | d :: rest => insertDocDesc d (sortDocsDesc rest)

/-- The merged, relevance-sorted candidate list built inside
`retrieve_context` (lines 183-196): Confluence results (when enabled)
followed by knowledge-base results, sorted by relevance descending.  The
Confluence search and the keyword-extraction LLM call are network
collaborators; their outputs are the `confluence_docs` and `keywords`
parameters. -/
def candidateDocs (keywords : List String) (confluence_docs : List RAGDocument)
    (knowledge_docs : List KnowledgeDoc) (confluence_enabled : Bool) :
    List RAGDocument :=
  sortDocsDesc
    ((if confluence_enabled then confluence_docs else []) ++
      search_knowledge_base keywords knowledge_docs)

/-- The capping loop of `retrieve_context` (lines 199-210): walk the sorted
documents accumulating content length; stop before the first document that
would push the total past `max_chars`. -/
def capLoop : List RAGDocument → Nat → Nat → List RAGDocument
  | [], _, _ => []
  | d :: rest, total, maxChars =>
      if maxChars < total + d.content.length then []
      else d :: capLoop rest (total + d.content.length) maxChars

/-- `retrieve_context` from `knowledge/rag.py` lines 166-210, with the two
network collaborators (keyword extraction, Confluence search) abstracted as
parameters: empty keywords short-circuit to `[]`, otherwise the merged
sorted candidates are capped at `RAG_MAX_TOKENS * 4` characters. -/
def retrieve_context (keywords : List String) (confluence_docs : List RAGDocument)
    (knowledge_docs : List KnowledgeDoc) (confluence_enabled : Bool) :
    List RAGDocument :=
  if keywords.isEmpty then []
  else capLoop (candidateDocs keywords confluence_docs knowledge_docs confluence_enabled)
    0 (RAG_MAX_TOKENS * 4)

/-- Total content length of a document list. -/
def docsTotalChars (l : List RAGDocument) : Nat :=
  (l.map (fun d => d.content.length)).sum

/-- A placeholder document for out-of-range `getD`; every statement using it
guards the index by the list length. -/
def dummyDoc : RAGDocument :=
  { source_type := "", source_id := "", source_name := "", content := "", relevance := 0 }

theorem capLoop_prefix : ∀ (docs : List RAGDocument) (total maxC : Nat),
    capLoop docs total maxC <+: docs := by
  intro docs
  induction docs with
  | nil => intro total maxC; simp [capLoop]
  | cons d rest ih =>
      intro total maxC
      by_cases h : maxC < total + d.content.length
      · simp [capLoop, h]
      · simp only [capLoop, if_neg h]
        exact (List.cons_prefix_cons).mpr ⟨rfl, ih _ _⟩

theorem capLoop_total : ∀ (docs : List RAGDocument) (total maxC : Nat),
    total ≤ maxC → total + docsTotalChars (capLoop docs total maxC) ≤ maxC := by
  intro docs
  induction docs with
  | nil => intro total maxC h; simpa [capLoop, docsTotalChars] using h
  | cons d rest ih =>
      intro total maxC h
      by_cases hb : maxC < total + d.content.length
      · simpa [capLoop, hb, docsTotalChars] using h
      · have hrec := ih (total + d.content.length) maxC (Nat.le_of_not_lt hb)
        simp only [capLoop, if_neg hb, docsTotalChars, List.map_cons, List.sum_cons]
        simp only [docsTotalChars] at hrec
        omega

theorem capLoop_boundary : ∀ (docs : List RAGDocument) (total maxC : Nat),
    (capLoop docs total maxC).length < docs.length →
    maxC < total + docsTotalChars (capLoop docs total maxC) +
      (docs.getD (capLoop docs total maxC).length dummyDoc).content.length := by
  intro docs
  induction docs with
  | nil => intro total maxC h; simp [capLoop] at h
  | cons d rest ih =>
      intro total maxC h
      by_cases hb : maxC < total + d.content.length
      · simp only [capLoop, if_pos hb, docsTotalChars, List.map_nil, List.sum_nil,
          List.length_nil, List.getD_cons_zero]
        omega
      · simp only [capLoop, if_neg hb] at h ⊢
        simp only [List.length_cons, Nat.succ_lt_succ_iff] at h
        have hrec := ih (total + d.content.length) maxC h
        simp only [docsTotalChars, List.map_cons, List.sum_cons, List.length_cons,
          List.getD_cons_succ]
        simp only [docsTotalChars] at hrec
        omega

/-- The C5 property at given inputs: the returned documents are a prefix of
the relevance-sorted candidate list (hence each is kept whole, never
truncated by the cap), their total content length is within the
`RAG_MAX_TOKENS * 4` character budget, and if any candidate was excluded the
first excluded one would have pushed the total past the budget. -/
def RetrieveCapProp (keywords : List String) (conf : List RAGDocument)
    (kd : List KnowledgeDoc) (ce : Bool) : Prop :=
  retrieve_context keywords conf kd ce <+: candidateDocs keywords conf kd ce ∧
  docsTotalChars (retrieve_context keywords conf kd ce) ≤ RAG_MAX_TOKENS * 4 ∧
  ((retrieve_context keywords conf kd ce).length <
      (candidateDocs keywords conf kd ce).length →
    RAG_MAX_TOKENS * 4 <
      docsTotalChars (retrieve_context keywords conf kd ce) +
        ((candidateDocs keywords conf kd ce).getD
          (retrieve_context keywords conf kd ce).length dummyDoc).content.length)

/-- C5: for every keyword list, Confluence result list and knowledge-base
document list, the documents `retrieve_context` returns are a budget-capped
prefix of the relevance-sorted candidates: total length never exceeds
`RAG_MAX_TOKENS * 4`, the first excluded document (if any) would have
overflowed the budget, and no document is partially included. -/
theorem retrieve_context_cap (keywords : List String) (conf : List RAGDocument)
    (kd : List KnowledgeDoc) (ce : Bool) (hk : keywords.isEmpty = false) :
    RetrieveCapProp keywords conf kd ce := by
  have hp : retrieve_context keywords conf kd ce =
      capLoop (candidateDocs keywords conf kd ce) 0 (RAG_MAX_TOKENS * 4) := by
    simp [retrieve_context, hk]
  refine ⟨?_, ?_, ?_⟩
  · rw [hp]; exact capLoop_prefix _ _ _
  · rw [hp]
    simpa using capLoop_total (candidateDocs keywords conf kd ce) 0 (RAG_MAX_TOKENS * 4)
      (Nat.zero_le _)
  · rw [hp]
    intro hlt
    simpa using capLoop_boundary (candidateDocs keywords conf kd ce) 0 (RAG_MAX_TOKENS * 4) hlt

/-- Witness for C5: a concrete non-empty keyword list with empty sources. -/
theorem retrieve_context_cap_witness :
    (["budget"] : List String).isEmpty = false ∧ RetrieveCapProp ["budget"] [] [] false :=
  ⟨rfl, retrieve_context_cap ["budget"] [] [] false rfl⟩

theorem scoreFoldAux_fst (kws : List String) :
    ∀ (chunks : List String) (b : ℚ × String),
      (scoreFoldAux kws b chunks).1 = (chunks.map (chunkScore kws)).foldl max b.1 := by
  intro chunks
  induction chunks with
  | nil => intro b; rfl
  | cons c rest ih =>
      intro b
      simp only [scoreFoldAux, List.map_cons, List.foldl_cons]
      rw [ih]
      congr 1
      by_cases hlt : b.1 < chunkScore kws c
      · simp [hlt, max_eq_right (le_of_lt hlt)]
      · simp [hlt, max_eq_left (not_lt.mp hlt)]

theorem scoreFoldAux_achieves (kws : List String) :
    ∀ (chunks : List String) (b : ℚ × String),
      scoreFoldAux kws b chunks = b ∨
      ∃ c ∈ chunks, scoreFoldAux kws b chunks = (chunkScore kws c, c) := by
  intro chunks
  induction chunks with
  | nil => intro b; exact Or.inl rfl
  | cons c rest ih =>
      intro b
      simp only [scoreFoldAux]
      by_cases hlt : b.1 < chunkScore kws c
      · rw [if_pos hlt]
        rcases ih (chunkScore kws c, c) with h | ⟨c', hc', h⟩
        · exact Or.inr ⟨c, List.mem_cons_self _ _, h⟩
        · exact Or.inr ⟨c', List.mem_cons_of_mem _ hc', h⟩
      · rw [if_neg hlt]
        rcases ih b with h | ⟨c', hc', h⟩
        · exact Or.inl h
        · exact Or.inr ⟨c', List.mem_cons_of_mem _ hc', h⟩

theorem scoreChunksLoop_fst (kws : List String) (chunks : List String) :
    (scoreChunksLoop kws chunks).1 = maxChunkScore kws chunks :=
  scoreFoldAux_fst kws chunks (0, "")

theorem scoreChunksLoop_achieves (kws : List String) (chunks : List String)
    (h : 0 < (scoreChunksLoop kws chunks).1) :
    ∃ c ∈ chunks, scoreChunksLoop kws chunks = (chunkScore kws c, c) := by
  rcases scoreFoldAux_achieves kws chunks (0, "") with heq | hex
  · rw [scoreChunksLoop] at h
    rw [heq] at h
    exact absurd h (lt_irrefl 0)
  · exact hex

theorem mem_insertScoredDesc {x d : ℚ × RAGDocument} :
    ∀ l, x ∈ insertScoredDesc d l → x = d ∨ x ∈ l := by
  intro l
  induction l with
  | nil => intro h; simp [insertScoredDesc] at h; exact Or.inl h
  | cons y ys ih =>
      intro h
      simp only [insertScoredDesc] at h
      by_cases hc : y.1 ≤ d.1
      · rw [if_pos hc] at h
        rcases List.mem_cons.mp h with h1 | h1
        · exact Or.inl h1
        · exact Or.inr h1
      · rw [if_neg hc] at h
        rcases List.mem_cons.mp h with h1 | h1
        · exact Or.inr (h1 ▸ List.mem_cons_self _ _)
        · rcases ih h1 with h2 | h2
          · exact Or.inl h2
          · exact Or.inr (List.mem_cons_of_mem _ h2)

theorem mem_sortScoredDesc {x : ℚ × RAGDocument} :
    ∀ l, x ∈ sortScoredDesc l → x ∈ l := by
  intro l
  induction l with
  | nil => intro h; simp [sortScoredDesc] at h
  | cons d rest ih =>
      intro h
      rcases mem_insertScoredDesc _ h with h' | h'
      · exact h' ▸ List.mem_cons_self _ _
      · exact List.mem_cons_of_mem _ (ih h')

/-- The knowledge-base document of spec scenario D: two chunks, one of which
contains the single keyword. -/
def exampleKnowledgeDoc : KnowledgeDoc :=
  { id := "kd1"
    source_type := "file"
    source_name := "Example"
    content_chunks := ["alpha beta", "gamma delta"] }

/-- The document that scenario D must return: the best chunk with full
relevance. -/
def exampleResultDoc : RAGDocument :=
  { source_type := "file"
    source_id := "kd1"
    source_name := "Example"
    content := "alpha beta"
    relevance := 1 }

theorem scoreChunksLoop_example :
    scoreChunksLoop ["beta"] ["alpha beta", "gamma delta"] = (1, "alpha beta") := by
  have hs1 : chunkScore ["beta"] "alpha beta" = 1 := by
    have hin : pyIn (pyLower "beta") (pyLower "alpha beta") = true := by decide
    simp [chunkScore, hin]
  have hs2 : chunkScore ["beta"] "gamma delta" = 0 := by
    have hin : pyIn (pyLower "beta") (pyLower "gamma delta") = false := by decide
    simp [chunkScore, hin]
  rw [scoreChunksLoop]
  simp only [scoreFoldAux, hs1, hs2]
  norm_num

theorem search_kb_example_eval :
    search_knowledge_base ["beta"] [exampleKnowledgeDoc] = [exampleResultDoc] := by
  have htr : truncate1000 "alpha beta" = "alpha beta" := by
    rw [truncate1000, if_neg (by decide)]
  rw [search_knowledge_base, if_neg (by decide)]
  simp only [exampleKnowledgeDoc, List.filterMap, scoreChunksLoop_example]
  norm_num
  simp [sortScoredDesc, insertScoredDesc, RAG_MAX_DOCS, htr, exampleResultDoc]

/-- C8: every document returned by `search_knowledge_base` has positive
relevance (zero-scoring documents are discarded), its relevance is the
maximum over its source document's chunks of `(matching keywords) /
(total keywords)`, and its content is (the truncation of) a single chunk
achieving that maximum; concretely, scenario D — chunks
`["alpha beta", "gamma delta"]` with keywords `["beta"]` — returns exactly
the chunk "alpha beta" with relevance 1. -/
theorem search_knowledge_base_scoring :
    (∀ kws docs d, d ∈ search_knowledge_base kws docs →
      0 < d.relevance ∧
      ∃ doc ∈ docs,
        d.relevance = maxChunkScore kws doc.content_chunks ∧
        ∃ c ∈ doc.content_chunks,
          chunkScore kws c = d.relevance ∧ d.content = truncate1000 c) ∧
    (search_knowledge_base ["beta"] [exampleKnowledgeDoc]).map
        (fun d => (d.content, d.relevance)) = [("alpha beta", (1 : ℚ))] := by
  constructor
  · intro kws docs d hd
    rw [search_knowledge_base] at hd
    by_cases hg : docs.isEmpty ∨ kws.isEmpty
    · rw [if_pos hg] at hd
      simp at hd
    · rw [if_neg hg] at hd
      rcases List.mem_map.mp hd with ⟨p, hp, hpd⟩
      have hp1 : p ∈ sortScoredDesc (docs.filterMap _) := List.take_subset _ _ hp
      have hp2 := mem_sortScoredDesc _ hp1
      rcases List.mem_filterMap.mp hp2 with ⟨doc, hdoc, heq⟩
      by_cases hpos : 0 < (scoreChunksLoop kws doc.content_chunks).1
      · rw [if_pos hpos] at heq
        have hpval := Option.some.inj heq
        rcases scoreChunksLoop_achieves kws doc.content_chunks hpos with ⟨c, hc, hcc⟩
        subst hpd
        rw [← hpval]
        refine ⟨hpos, doc, hdoc, ?_, c, hc, ?_, ?_⟩
        · show (scoreChunksLoop kws doc.content_chunks).1 = maxChunkScore kws doc.content_chunks
          exact scoreChunksLoop_fst kws doc.content_chunks
        · show chunkScore kws c = (scoreChunksLoop kws doc.content_chunks).1
          rw [hcc]
        · show truncate1000 (scoreChunksLoop kws doc.content_chunks).2 = truncate1000 c
          rw [hcc]
      · rw [if_neg hpos] at heq
        exact absurd heq (by simp)
  · rw [search_kb_example_eval]
    simp [exampleResultDoc]

/-- Witness for C8: the scenario-D result document is a member of the
returned list and satisfies the scoring property. -/
theorem search_knowledge_base_scoring_witness :
    exampleResultDoc ∈ search_knowledge_base ["beta"] [exampleKnowledgeDoc] ∧
    (0 < exampleResultDoc.relevance ∧
      ∃ doc ∈ [exampleKnowledgeDoc],
        exampleResultDoc.relevance = maxChunkScore ["beta"] doc.content_chunks ∧
        ∃ c ∈ doc.content_chunks,
          chunkScore ["beta"] c = exampleResultDoc.relevance ∧
          exampleResultDoc.content = truncate1000 c) :=
  ⟨by rw [search_kb_example_eval]; exact List.mem_singleton.mpr rfl,
   search_knowledge_base_scoring.1 ["beta"] [exampleKnowledgeDoc] exampleResultDoc
     (by rw [search_kb_example_eval]; exact List.mem_singleton.mpr rfl)⟩

/-- ChatMessage from `agents/types.py`. -/
structure ChatMessage where
  role : String
  content : String
  deriving DecidableEq, Repr

/-- ToolExecution from `agents/types.py` (the `timestamp` field, a wall-clock
default, is not modelled; no claim mentions it). `arguments` carries the
parsed JSON value. -/
structure ToolExecution where
  tool_name : String
  arguments : Json
  result : Option String := none
  status : String := "executed"

/-- PendingAction from `agents/types.py` (`created_at` not modelled). -/
structure PendingAction where
  id : String
  agent_id : AgentId
  tool_name : String
  tool_arguments : Json
  description : String
  status : String := "pending"
  result : Option String := none

/-- SourceAttribution from `agents/types.py`; the loop only ever produces an
empty list of these. -/
structure SourceAttribution where
  source_type : String
  source_id : String
  source_label : String
  excerpt : Option String := none
  relevance : Option ℚ := none

/-- AgentResponse from `agents/types.py`. -/
structure AgentResponse where
  agent_id : AgentId
  agent_name : String
  content : String
  tools_executed : List ToolExecution
  pending_actions : List PendingAction
  handoff_to : Option AgentId
  rag_context : List RAGDocument
  sources : List SourceAttribution
  iterations : Nat

/-- The `_HANDOFF_RE` alternation in declared order (`agents/loop.py` lines
180-183); the six alternatives start with distinct letters, so regex
alternation order never matters here. -/
def handoffNames : List (String × AgentId) :=
  [("strategy", .strategy), ("discovery", .discovery), ("risk", .risk),
   ("communications", .communications), ("advisor", .advisor), ("thinker", .thinker)]

/-- Try to complete a handoff match right after a (lower-cased) "[handoff:"
tag: skip `\s*`, then require one alternative name followed by `]`. -/
def tryHandoffAt (cs : List Char) : Option AgentId :=
  let cs1 := cs.dropWhile pyIsSpace
  handoffNames.findSome? (fun p =>
    if p.1.data.isPrefixOf cs1 ∧ (cs1.drop p.1.data.length).headD ' ' = ']' then some p.2
    else none)

/-- Scan for the first `_HANDOFF_RE` match (the regex is case-insensitive, so
the scan runs over the lower-cased content). -/
def detectHandoffAux : List Char → Option AgentId
  | [] => none
  | c :: rest =>
      if ("[handoff:".data).isPrefixOf (c :: rest) then
        match tryHandoffAt ((c :: rest).drop 9) with
        | some a => some a
        | none => detectHandoffAux rest
      else detectHandoffAux rest

/-- `_detect_handoff` from `agents/loop.py` lines 186-188. -/
def detect_handoff (content : String) : Option AgentId :=
  detectHandoffAux (pyLower content).data

/-- `", ".join`-style concatenation with an arbitrary separator. -/
def joinSep (sep : String) : List String → String
  | [] => ""
  | [w] => w
  | w :: rest => w ++ sep ++ joinSep sep rest

/-- First value under a key of a decoded JSON object (keys are unique by
`insertKV`). -/
def jsonGet? (kvs : List (String × Json)) (key : String) : Option Json :=
  (kvs.find? (fun kv => kv.1 = key)).map Prod.snd

/-- Python subscript `v[key]` with a string key on a decoded JSON value, as
the loop does at `loop.py:89-90` (`tc["name"]`, `tc["arguments"]`): a dict
yields the value (`KeyError` when absent — unreachable for payloads
`parse_tool_calls` keeps, which contain both keys); subscripting a list or a
str by a string key raises `TypeError`. -/
def pySubscript (v : Json) (key : String) : Except PyExc Json :=
  match v with
  | .obj kvs =>
      match jsonGet? kvs key with
      | some x => .ok x
      | none => .error .keyError
  | _ => .error .typeError

/-- A parsed tool call shaped as the spec's Tool Call Request (§3): a JSON
object whose "name" is a string and whose "arguments" is an object.  Only
such calls run a loop branch to completion; `parse_tool_calls` also keeps
list and str payloads containing both words (see
`parse_tool_calls_typeerror_bug`), on which the loop raises instead. -/
def isWellFormedCall : Json → Bool
  | .obj kvs =>
      (match jsonGet? kvs "name" with | some (.str _) => true | _ => false) &&
      (match jsonGet? kvs "arguments" with | some (.obj _) => true | _ => false)
  | _ => false

/-- `check_autonomy_gate` applied to the raw `tc["name"]` value, as the loop
does at `loop.py:92`.  Manual and Advisory return Block before any lookup;
past those, the frozenset membership test raises `TypeError` on an unhashable
name (a list or dict); any other non-string name is hashable, belongs to no
tool table, and gates exactly like a string that is in no table (the literal
`""` is such a string). -/
def gateOnJson (name : Json) (lvl : AutonomyLevel) (a b : Bool) :
    Except PyExc AutonomyGateResult :=
  if lvl = .manual then .ok .block
  else if lvl = .advisory then .ok .block
  else
    match name with
    | .str s => .ok (check_autonomy_gate s lvl a b)
    | .arr _ => .error .typeError
    | .obj _ => .error .typeError
    | _ => .ok (check_autonomy_gate "" lvl a b)

theorem gateOnJson_str (s : String) (lvl : AutonomyLevel) (a b : Bool) :
    gateOnJson (Json.str s) lvl a b = .ok (check_autonomy_gate s lvl a b) := by
  cases lvl <;> rfl

/-- The collaborator inputs of one `run_agent_loop` invocation.  `behavior i`
is the text returned by the i-th LLM call of this run (`providers/llm.py`
`chat` either returns non-empty text or raises, and a raise propagates out of
the loop, so only the returned-text traces are modelled); `toolExec` is the
Tool Invoker's `execute_tool` giving `(content, is_error)`, and `describe`
its `describe_tool_action` — both external collaborators per spec §6,
receiving the raw subscripted name and arguments values exactly as the
source passes them. -/
structure LoopInputs where
  behavior : Nat → String
  toolExec : Json → Json → String × Bool
  describe : Json → Json → String
  system_prompt : String
  user_message : String
  history : List ChatMessage
  autonomy_level : AutonomyLevel
  auto_send_emails : Bool
  auto_create_jira_stories : Bool
  max_iterations : Nat

/-- One tool call processed inside an iteration (`agents/loop.py` lines
88-142), with the error paths of the source: `tc["name"]`/`tc["arguments"]`
raise `TypeError` on the non-dict payloads `parse_tool_calls` keeps; the
autonomy gate raises `TypeError` on an unhashable name; and a branch whose
name value is not a string or whose arguments value is not an object aborts
with `validationError` (see `PyExc`) — in the source the pydantic
record constructor, or for some argument shapes the invoker's/describer's
`arguments.get`, raises there, in every branch before any record is
appended, so the abort point and the appended state agree with the source on
every payload.  On the well-formed shape the three gate branches append
exactly as the source does; the uuid-based pending-action id is modelled by
a counter (opaque to all claims). -/
def processToolCall (inp : LoopInputs) (agent_id : AgentId)
    (st : List ToolExecution × List PendingAction × List String) (tc : Json) :
    Except PyExc (List ToolExecution × List PendingAction × List String) :=
  match pySubscript tc "name" with
  | .error e => .error e
  | .ok nameVal =>
    match pySubscript tc "arguments" with
    | .error e => .error e
    | .ok argsVal =>
      match gateOnJson nameVal inp.autonomy_level inp.auto_send_emails
          inp.auto_create_jira_stories with
      | .error e => .error e
      | .ok g =>
        match nameVal, argsVal with
        | .str tool_name, .obj args =>
            match g with
            | .execute =>
                .ok (st.1 ++ [{ tool_name := tool_name,
                                arguments := Json.obj args,
                                result := some (inp.toolExec (Json.str tool_name) (Json.obj args)).1,
                                status := if (inp.toolExec (Json.str tool_name) (Json.obj args)).2 then "failed" else "executed" }],
                     st.2.1,
                     st.2.2 ++ ["Tool \"" ++ tool_name ++ "\" result:\n" ++
                       (inp.toolExec (Json.str tool_name) (Json.obj args)).1])
            | .gate =>
                .ok (st.1 ++ [{ tool_name := tool_name,
                                arguments := Json.obj args,
                                status := "pending" }],
                     st.2.1 ++ [{ id := "pa_" ++ toString st.2.1.length,
                                  agent_id := agent_id,
                                  tool_name := tool_name,
                                  tool_arguments := Json.obj args,
                                  description := inp.describe (Json.str tool_name) (Json.obj args),
                                  status := "pending" }],
                     st.2.2 ++ ["Tool \"" ++ tool_name ++
                       "\" requires approval. Action queued for user review."])
            | .block =>
                .ok (st.1 ++ [{ tool_name := tool_name,
                                arguments := Json.obj args,
                                status := "blocked" }],
                     st.2.1,
                     st.2.2 ++ ["Tool \"" ++ tool_name ++ "\" would " ++
                       inp.describe (Json.str tool_name) (Json.obj args) ++
                       " — but execution is disabled in " ++
                       inp.autonomy_level.value ++ " mode."])
        | _, _ => .error .validationError

/-- The `for tc in tool_calls` loop over one response's parsed calls,
propagating the first exception (which aborts the whole run, as in the
source). -/
def processCalls (inp : LoopInputs) (agent_id : AgentId) :
    List Json → List ToolExecution × List PendingAction × List String →
    Except PyExc (List ToolExecution × List PendingAction × List String)
  | [], st => .ok st
  | tc :: rest, st =>
      match processToolCall inp agent_id st tc with
      | .error e => .error e
      | .ok st' => processCalls inp agent_id rest st'

/-- The synthetic user message folding an iteration's tool results back into
the conversation (`agents/loop.py` lines 146-154). -/
def toolResultsMessage (parts : List String) : ChatMessage :=
  { role := "user",
    content := "[Tool Results]\n" ++ joinSep "\n\n" parts ++
      "\n\nPlease continue with your analysis based on these results. " ++
      "If you have all the information you need, provide your final response without any tool calls." }

/-- The state at exit of the `for` loop in `run_agent_loop`: `final_content`
is `""` exactly when the loop exhausted its iterations without a
zero-tool-call response. -/
structure LoopExit where
  iterations : Nat
  final_content : String
  messages : List ChatMessage
  tools_executed : List ToolExecution
  pending_actions : List PendingAction

/-- The `for i in range(max_iterations)` loop of `run_agent_loop`
(`agents/loop.py` lines 66-154): `rem` counts remaining iterations, `i` the
completed ones (so the current LLM call has index `i`).  An exception from
`parse_tool_calls` or from processing a tool call propagates (aborting the
whole run); zero parsed calls break with the response as final content;
otherwise each call is gated and processed in order, and the conversation
gets the assistant message plus the synthetic tool-results user message. -/
def loopGo (inp : LoopInputs) (agent_id : AgentId) :
    Nat → Nat → List ChatMessage → List ToolExecution → List PendingAction →
    Except PyExc LoopExit
  | 0, i, msgs, te, pa => .ok ⟨i, "", msgs, te, pa⟩
  | rem + 1, i, msgs, te, pa =>
      match parse_tool_calls (inp.behavior i) with
      | .error e => .error e
      | .ok [] => .ok ⟨i + 1, inp.behavior i, msgs, te, pa⟩
      | .ok (c :: cs) =>
          match processCalls inp agent_id (c :: cs) (te, pa, []) with
          | .error e => .error e
          | .ok st =>
              loopGo inp agent_id rem (i + 1)
                (msgs ++ [{ role := "assistant", content := inp.behavior i },
                  toolResultsMessage st.2.2])
                st.1 st.2.1

/-- `run_agent_loop` from `agents/loop.py` lines 34-173: build the initial
conversation, run the iteration loop, issue the finalizing LLM call (index
`iterations`, the next unused call index) when the loop never produced final
content, strip tool blocks from that finalizing output only, and assemble
the AgentResponse with handoff detection on the final text. -/
def run_agent_loop (inp : LoopInputs) (agent_id : AgentId) (agent_name : String)
    (rag_context : List RAGDocument) : Except PyExc AgentResponse :=
  match loopGo inp agent_id inp.max_iterations 0
      ({ role := "system", content := inp.system_prompt } ::
        inp.history ++ [{ role := "user", content := inp.user_message }]) [] [] with
  | .error e => .error e
  | .ok out =>
      .ok { agent_id := agent_id
            agent_name := agent_name
            content :=
              if out.final_content = "" then strip_tool_blocks (inp.behavior out.iterations)
              else out.final_content
            tools_executed := out.tools_executed
            pending_actions := out.pending_actions
            handoff_to := detect_handoff
              (if out.final_content = "" then strip_tool_blocks (inp.behavior out.iterations)
               else out.final_content)
            rag_context := rag_context
            sources := []
            iterations := out.iterations }
theorem processToolCall_ok (inp : LoopInputs) (aid : AgentId)
    (st : List ToolExecution × List PendingAction × List String) (tc : Json)
    (hwf : isWellFormedCall tc = true) :
    ∃ st', processToolCall inp aid st tc = .ok st' := by
  cases tc with
  | null => simp [isWellFormedCall] at hwf
  | bool b => simp [isWellFormedCall] at hwf
  | num l => simp [isWellFormedCall] at hwf
  | str s => simp [isWellFormedCall] at hwf
  | arr xs => simp [isWellFormedCall] at hwf
  | obj kvs =>
      simp only [isWellFormedCall, Bool.and_eq_true] at hwf
      obtain ⟨h1, h2⟩ := hwf
      cases hn : jsonGet? kvs "name" with
      | none => rw [hn] at h1; simp at h1
      | some v =>
          rw [hn] at h1
          cases v with
          | str n =>
              cases ha : jsonGet? kvs "arguments" with
              | none => rw [ha] at h2; simp at h2
              | some w =>
                  rw [ha] at h2
                  cases w with
                  | obj args =>
                      rw [processToolCall]
                      simp only [pySubscript, hn, ha, gateOnJson_str]
                      cases check_autonomy_gate n inp.autonomy_level
                          inp.auto_send_emails inp.auto_create_jira_stories <;>
                        exact ⟨_, rfl⟩
                  | null => simp at h2
                  | bool b => simp at h2
                  | num l => simp at h2
                  | str s => simp at h2
                  | arr xs => simp at h2
          | null => simp at h1
          | bool b => simp at h1
          | num l => simp at h1
          | arr xs => simp at h1
          | obj o => simp at h1

theorem processCalls_ok (inp : LoopInputs) (aid : AgentId) :
    ∀ (calls : List Json) (st : List ToolExecution × List PendingAction × List String),
      (∀ tc ∈ calls, isWellFormedCall tc = true) →
      ∃ st', processCalls inp aid calls st = .ok st' := by
  intro calls
  induction calls with
  | nil => intro st _; exact ⟨st, rfl⟩
  | cons c cs ih =>
      intro st hwf
      obtain ⟨st1, h1⟩ := processToolCall_ok inp aid st c (hwf c (List.mem_cons_self _ _))
      obtain ⟨st2, h2⟩ := ih st1 (fun tc htc => hwf tc (List.mem_cons_of_mem _ htc))
      refine ⟨st2, ?_⟩
      simp only [processCalls, h1]
      exact h2

/-- The i-th LLM response of a run parses to a non-empty list of tool calls,
each shaped as the spec's §3 Tool Call Request. -/
def NonEmptyWellFormedCalls (inp : LoopInputs) (i : Nat) : Prop :=
  ∃ l, parse_tool_calls (inp.behavior i) = .ok l ∧ l ≠ [] ∧
    ∀ tc ∈ l, isWellFormedCall tc = true

theorem loopGo_exhaust (inp : LoopInputs) (aid : AgentId) :
    ∀ (rem i : Nat) (msgs : List ChatMessage) (te : List ToolExecution)
      (pa : List PendingAction),
      (∀ j, i ≤ j → j < i + rem → NonEmptyWellFormedCalls inp j) →
      ∃ ms ts ps, loopGo inp aid rem i msgs te pa = .ok ⟨i + rem, "", ms, ts, ps⟩ := by
  intro rem
  induction rem with
  | zero =>
      intro i msgs te pa _
      exact ⟨msgs, te, pa, by simp [loopGo]⟩
  | succ rem ih =>
      intro i msgs te pa hne
      obtain ⟨l, hl, hlne, hwf⟩ := hne i (le_refl i) (by omega)
      cases l with
      | nil => exact absurd rfl hlne
      | cons c cs =>
          obtain ⟨st, hst⟩ := processCalls_ok inp aid (c :: cs) (te, pa, []) hwf
          obtain ⟨ms, ts, ps, hrec⟩ := ih (i + 1)
            (msgs ++ [{ role := "assistant", content := inp.behavior i },
              toolResultsMessage st.2.2])
            st.1 st.2.1
            (fun j hj1 hj2 => hne j (by omega) (by omega))
          refine ⟨ms, ts, ps, ?_⟩
          have he : i + 1 + rem = i + (rem + 1) := by omega
          rw [he] at hrec
          simp only [loopGo, hl, hst]
          exact hrec

theorem loopGo_break (inp : LoopInputs) (aid : AgentId) :
    ∀ (t rem i : Nat) (msgs : List ChatMessage) (te : List ToolExecution)
      (pa : List PendingAction),
      t < rem →
      (∀ j, i ≤ j → j < i + t → NonEmptyWellFormedCalls inp j) →
      parse_tool_calls (inp.behavior (i + t)) = .ok [] →
      ∃ ms ts ps,
        loopGo inp aid rem i msgs te pa =
          .ok ⟨i + t + 1, inp.behavior (i + t), ms, ts, ps⟩ := by
  intro t
  induction t with
  | zero =>
      intro rem i msgs te pa hrem hne hbreak
      cases rem with
      | zero => omega
      | succ rem =>
          refine ⟨msgs, te, pa, ?_⟩
          simp only [Nat.add_zero] at hbreak ⊢
          simp only [loopGo, hbreak]
  | succ t ih =>
      intro rem i msgs te pa hrem hne hbreak
      cases rem with
      | zero => omega
      | succ rem =>
          obtain ⟨l, hl, hlne, hwf⟩ := hne i (le_refl i) (by omega)
          cases l with
          | nil => exact absurd rfl hlne
          | cons c cs =>
              obtain ⟨st, hst⟩ := processCalls_ok inp aid (c :: cs) (te, pa, []) hwf
              have hbreak' : parse_tool_calls (inp.behavior (i + 1 + t)) = .ok [] := by
                have he : i + 1 + t = i + (t + 1) := by omega
                rw [he]; exact hbreak
              obtain ⟨ms, ts, ps, hrec⟩ := ih rem (i + 1)
                (msgs ++ [{ role := "assistant", content := inp.behavior i },
                  toolResultsMessage st.2.2])
                st.1 st.2.1
                (by omega)
                (fun j hj1 hj2 => hne j (by omega) (by omega))
                hbreak'
              refine ⟨ms, ts, ps, ?_⟩
              have he1 : i + 1 + t + 1 = i + (t + 1) + 1 := by omega
              have he2 : i + 1 + t = i + (t + 1) := by omega
              rw [he1, he2] at hrec
              simp only [loopGo, hl, hst]
              exact hrec

/-- C2 (amended): when every parsed tool call is shaped as the spec's Tool
Call Request (a JSON object with a string name and an object arguments — the
shape on which the loop body does not raise), the claim holds: a first
zero-tool-call response at call k ≤ max_iterations (non-empty, as the chat
collaborator guarantees) stops the loop after exactly k iterations with that
response as the non-empty final content and no finalizing call; and a
behavior whose every response carries such tool calls runs exactly
max_iterations iterations followed by one finalizing call (index
max_iterations) whose output is only stripped of tool-block syntax, never
parsed for tool calls.  Without the shape restriction the claim is false:
see `run_agent_loop_typeerror_on_nondict_call`. -/
theorem run_agent_loop_termination :
    (∀ (inp : LoopInputs) (aid : AgentId) (an : String) (rag : List RAGDocument)
      (k : Nat), 1 ≤ k → k ≤ inp.max_iterations →
      (∀ i, i + 1 < k → NonEmptyWellFormedCalls inp i) →
      parse_tool_calls (inp.behavior (k - 1)) = .ok [] →
      inp.behavior (k - 1) ≠ "" →
      ∃ r, run_agent_loop inp aid an rag = .ok r ∧
        r.iterations = k ∧ r.content = inp.behavior (k - 1) ∧ r.content ≠ "") ∧
    (∀ (inp : LoopInputs) (aid : AgentId) (an : String) (rag : List RAGDocument),
      (∀ i, i < inp.max_iterations → NonEmptyWellFormedCalls inp i) →
      ∃ r, run_agent_loop inp aid an rag = .ok r ∧
        r.iterations = inp.max_iterations ∧
        r.content = strip_tool_blocks (inp.behavior inp.max_iterations)) := by
  constructor
  · intro inp aid an rag k hk1 hk2 hne hbreak hnemp
    have hbreak0 : parse_tool_calls (inp.behavior (0 + (k - 1))) = .ok [] := by
      simpa using hbreak
    obtain ⟨ms, ts, ps, hloop⟩ := loopGo_break inp aid (k - 1) inp.max_iterations 0
      ({ role := "system", content := inp.system_prompt } ::
        inp.history ++ [{ role := "user", content := inp.user_message }]) [] []
      (by omega) (fun j hj1 hj2 => hne j (by omega)) hbreak0
    have hz : 0 + (k - 1) = k - 1 := by omega
    rw [hz] at hloop
    have hk : k - 1 + 1 = k := by omega
    rw [hk] at hloop
    have hrun : run_agent_loop inp aid an rag =
        .ok { agent_id := aid, agent_name := an, content := inp.behavior (k - 1),
              tools_executed := ts, pending_actions := ps,
              handoff_to := detect_handoff (inp.behavior (k - 1)),
              rag_context := rag, sources := [], iterations := k } := by
      rw [run_agent_loop, hloop]
      simp [if_neg hnemp]
    exact ⟨_, hrun, rfl, rfl, hnemp⟩
  · intro inp aid an rag hne
    obtain ⟨ms, ts, ps, hloop⟩ := loopGo_exhaust inp aid inp.max_iterations 0
      ({ role := "system", content := inp.system_prompt } ::
        inp.history ++ [{ role := "user", content := inp.user_message }]) [] []
      (fun j hj1 hj2 => hne j (by omega))
    have hz : 0 + inp.max_iterations = inp.max_iterations := by omega
    rw [hz] at hloop
    have hrun : run_agent_loop inp aid an rag =
        .ok { agent_id := aid, agent_name := an,
              content := strip_tool_blocks (inp.behavior inp.max_iterations),
              tools_executed := ts, pending_actions := ps,
              handoff_to := detect_handoff
                (strip_tool_blocks (inp.behavior inp.max_iterations)),
              rag_context := rag, sources := [], iterations := inp.max_iterations } := by
      rw [run_agent_loop, hloop]
      simp
    exact ⟨_, hrun, rfl, rfl⟩

/-- AgentChatResponse from `agents/types.py`. -/
structure AgentChatResponse where
  response : String
  agent_id : AgentId
  agent_name : String
  tools_executed : List ToolExecution
  pending_actions : List PendingAction
  rag_context : List RAGDocument
  sources : List SourceAttribution

/-- The handoff control flow of `agent_chat` (`main.py` lines 140-206),
starting after routing and the first loop run.  `routed` is the routed agent,
`routed_name` its display name, `first` the first `run_agent_loop` result,
and `handoffRun t` the result the second loop run would produce for target
`t` (the loop itself, with its handoff prompt and truncated context message,
is the collaborator call at lines 159-186).  The returned number counts the
loop runs performed: a second run happens exactly when the first result names
a handoff target different from the routed agent, and the second result's
own handoff target is never consulted. -/
def agent_chat (routed : AgentId) (routed_name : String) (first : AgentResponse)
    (handoffRun : AgentId → AgentResponse) : AgentChatResponse × Nat :=
  match first.handoff_to with
  | some t =>
      if t ≠ routed then
        ({ response := "**" ++ routed_name ++ ":**\n" ++ first.content ++
             "\n\n---\n\n**" ++ (handoffRun t).agent_name ++
             "** (supplementary analysis):\n" ++ (handoffRun t).content
           agent_id := first.agent_id
           agent_name := first.agent_name
           tools_executed := first.tools_executed ++ (handoffRun t).tools_executed
           pending_actions := first.pending_actions ++ (handoffRun t).pending_actions
           rag_context := first.rag_context
           sources := first.sources ++ (handoffRun t).sources }, 2)
      else
        ({ response := first.content
           agent_id := first.agent_id
           agent_name := first.agent_name
           tools_executed := first.tools_executed
           pending_actions := first.pending_actions
           rag_context := first.rag_context
           sources := first.sources }, 1)
  | none =>
      ({ response := first.content
         agent_id := first.agent_id
         agent_name := first.agent_name
         tools_executed := first.tools_executed
         pending_actions := first.pending_actions
         rag_context := first.rag_context
         sources := first.sources }, 1)

/-- C7: `agent_chat` performs at most two loop runs; it performs two exactly
when the first run's result names a handoff target different from the routed
agent; and the run count never depends on the second run's results at all —
in particular the second result's handoff target is never followed, so no
chain beyond one extra hop can occur. -/
theorem agent_chat_single_hop :
    (∀ routed rn first h, (agent_chat routed rn first h).2 ≤ 2) ∧
    (∀ routed rn first h, (agent_chat routed rn first h).2 = 2 ↔
      ∃ t, first.handoff_to = some t ∧ t ≠ routed) ∧
    (∀ routed rn first h h',
      (agent_chat routed rn first h).2 = (agent_chat routed rn first h').2) := by
  refine ⟨?_, ?_, ?_⟩
  · intro routed rn first h
    rw [agent_chat]
    cases first.handoff_to with
    | none => exact Nat.le_succ 1
    | some t =>
        by_cases ht : t ≠ routed
        · simp [ht]
        · simp [ht]
  · intro routed rn first h
    rw [agent_chat]
    cases hh : first.handoff_to with
    | none => simp
    | some t =>
        by_cases ht : t ≠ routed
        · simp only [if_pos ht]
          simp [ht]
        · simp only [if_neg ht]
          push_neg at ht
          simp [ht]
  · intro routed rn first h h'
    rw [agent_chat, agent_chat]
    cases first.handoff_to with
    | none => rfl
    | some t =>
        by_cases ht : t ≠ routed
        · simp [ht]
        · simp [ht]

/-- A model response carrying exactly one well-formed tool call. -/
def egToolResponse : String :=
  "```tool\n\x7b\"name\": \"email_send\", \"arguments\": \x7b\x7d\x7d\n```"

/-- Loop inputs whose model emits one tool call, then a final answer. -/
def egInputsBreak : LoopInputs :=
  { behavior := fun i => if i = 0 then egToolResponse else "All done."
    toolExec := fun _ _ => ("sent", false)
    describe := fun _ _ => "send an email"
    system_prompt := "sys"
    user_message := "msg"
    history := []
    autonomy_level := .full
    auto_send_emails := false
    auto_create_jira_stories := false
    max_iterations := 3 }

/-- Loop inputs whose model emits a well-formed tool call on every
iteration. -/
def egInputsExhaust : LoopInputs :=
  { behavior := fun _ => egToolResponse
    toolExec := fun _ _ => ("sent", false)
    describe := fun _ _ => "send an email"
    system_prompt := "sys"
    user_message := "msg"
    history := []
    autonomy_level := .full
    auto_send_emails := false
    auto_create_jira_stories := false
    max_iterations := 2 }

/-- The parsed form of `egToolResponse`. -/
def egToolCall : Json :=
  Json.obj [("name", Json.str "email_send"), ("arguments", Json.obj [])]

/-- Witness for C2's amended theorem: a behavior that stops at call 2 of 3
yields exactly 2 iterations with the final answer as content, and a behavior
that always emits well-formed tool calls over a 2-iteration budget yields 2
iterations and the stripped finalizing-call output. -/
theorem run_agent_loop_termination_witness :
    (∃ r, run_agent_loop egInputsBreak .strategy "Strategy" [] = .ok r ∧
      r.iterations = 2 ∧ r.content = egInputsBreak.behavior 1 ∧ r.content ≠ "") ∧
    (∃ r, run_agent_loop egInputsExhaust .strategy "Strategy" [] = .ok r ∧
      r.iterations = egInputsExhaust.max_iterations ∧
      r.content = strip_tool_blocks (egInputsExhaust.behavior
        egInputsExhaust.max_iterations)) :=
  ⟨run_agent_loop_termination.1 egInputsBreak .strategy "Strategy" [] 2
    (by decide) (by decide)
    (fun i hi => by
      have hi0 : i = 0 := by omega
      subst hi0
      exact ⟨[egToolCall], rfl, by simp,
        fun tc htc => by rw [List.mem_singleton] at htc; subst htc; rfl⟩)
    rfl (by decide),
   run_agent_loop_termination.2 egInputsExhaust .strategy "Strategy" []
    (fun i hi =>
      ⟨[egToolCall], rfl, by simp,
        fun tc htc => by rw [List.mem_singleton] at htc; subst htc; rfl⟩)⟩

/-- Loop inputs whose model answers every call with a fenced block whose
payload is the JSON array `["name", "arguments"]` — a payload
`parse_tool_calls` keeps (see `parse_tool_calls_typeerror_bug`) that is not
a Tool Call Request. -/
def egInputsNonDict : LoopInputs :=
  { behavior := fun _ => "```tool\n[\"name\", \"arguments\"]```"
    toolExec := fun _ _ => ("sent", false)
    describe := fun _ _ => "send an email"
    system_prompt := "sys"
    user_message := "msg"
    history := []
    autonomy_level := .full
    auto_send_emails := false
    auto_create_jira_stories := false
    max_iterations := 2 }

/-- Counterexample for C2 as stated: this behavior's every response contains
a parsed (kept) tool call, yet the loop performs no 2 = max_iterations
iterations and no finalizing call — `tc["name"]` on the list payload raises
`TypeError` in the very first iteration and the whole run errors. -/
theorem run_agent_loop_typeerror_on_nondict_call :
    parse_tool_calls (egInputsNonDict.behavior 0) =
      .ok [Json.arr [Json.str "name", Json.str "arguments"]] ∧
    run_agent_loop egInputsNonDict .strategy "Strategy" [] = .error PyExc.typeError ∧
    ∀ r, run_agent_loop egInputsNonDict .strategy "Strategy" [] ≠ .ok r :=
  ⟨rfl, rfl, fun _ h => nomatch h⟩

/-- The number of Tool Execution Records with status "pending". -/
def countPending (te : List ToolExecution) : Nat :=
  (te.filter (fun t => t.status = "pending")).length

/-- The C10 invariant on a loop outcome: on success, the pending-action list
and the "pending"-status execution records have equal counts (an error
outcome carries no response to constrain). -/
def PendingInvariant : Except PyExc AgentResponse → Prop
  | .error _ => True
  | .ok r => r.pending_actions.length = countPending r.tools_executed

theorem processToolCall_inv (inp : LoopInputs) (aid : AgentId)
    (st st' : List ToolExecution × List PendingAction × List String) (tc : Json)
    (h : processToolCall inp aid st tc = .ok st')
    (hinv : st.2.1.length = countPending st.1) :
    st'.2.1.length = countPending st'.1 := by
  rw [processToolCall] at h
  cases hn : pySubscript tc "name" with
  | error e => rw [hn] at h; exact Except.noConfusion h
  | ok nameVal =>
      rw [hn] at h
      dsimp only at h
      cases ha : pySubscript tc "arguments" with
      | error e => rw [ha] at h; exact Except.noConfusion h
      | ok argsVal =>
          rw [ha] at h
          dsimp only at h
          cases hg : gateOnJson nameVal inp.autonomy_level inp.auto_send_emails
              inp.auto_create_jira_stories with
          | error e => rw [hg] at h; exact Except.noConfusion h
          | ok g =>
              rw [hg] at h
              dsimp only at h
              cases nameVal <;> cases argsVal <;> try exact Except.noConfusion h
              rename_i n args
              cases g with
              | execute =>
                  injection h with h'
                  subst h'
                  cases hr : (inp.toolExec (Json.str n) (Json.obj args)).2 <;>
                    simp [countPending, List.filter_append, hr] <;>
                    simpa [countPending] using hinv
              | gate =>
                  injection h with h'
                  subst h'
                  simp [countPending, List.filter_append]
                  simpa [countPending] using hinv
              | block =>
                  injection h with h'
                  subst h'
                  simp [countPending, List.filter_append]
                  simpa [countPending] using hinv

theorem processCalls_inv (inp : LoopInputs) (aid : AgentId) :
    ∀ (calls : List Json)
      (st st' : List ToolExecution × List PendingAction × List String),
      processCalls inp aid calls st = .ok st' →
      st.2.1.length = countPending st.1 →
      st'.2.1.length = countPending st'.1 := by
  intro calls
  induction calls with
  | nil =>
      intro st st' h hinv
      injection h with h'
      subst h'
      exact hinv
  | cons c cs ih =>
      intro st st' h hinv
      simp only [processCalls] at h
      cases hc : processToolCall inp aid st c with
      | error e => rw [hc] at h; exact Except.noConfusion h
      | ok st1 =>
          rw [hc] at h
          exact ih st1 st' h (processToolCall_inv inp aid st st1 c hc hinv)

theorem loopGo_pending_inv (inp : LoopInputs) (aid : AgentId) :
    ∀ (rem i : Nat) (msgs : List ChatMessage) (te : List ToolExecution)
      (pa : List PendingAction) (out : LoopExit),
      pa.length = countPending te →
      loopGo inp aid rem i msgs te pa = .ok out →
      out.pending_actions.length = countPending out.tools_executed := by
  intro rem
  induction rem with
  | zero =>
      intro i msgs te pa out h hout
      simp only [loopGo] at hout
      cases hout
      exact h
  | succ rem ih =>
      intro i msgs te pa out h hout
      simp only [loopGo] at hout
      cases hp : parse_tool_calls (inp.behavior i) with
      | error e => rw [hp] at hout; exact Except.noConfusion hout
      | ok l =>
          rw [hp] at hout
          cases l with
          | nil =>
              cases hout
              exact h
          | cons c cs =>
              dsimp only at hout
              cases hc : processCalls inp aid (c :: cs) (te, pa, []) with
              | error e => rw [hc] at hout; exact Except.noConfusion hout
              | ok st =>
                  rw [hc] at hout
                  exact ih _ _ _ _ out
                    (processCalls_inv inp aid (c :: cs) (te, pa, []) st hc h) hout

/-- C10: throughout every run, a PendingAction and a "pending"
ToolExecution record are appended together (only in the Gate branch), so in
every successfully returned AgentResponse the number of pending actions
equals the number of execution records with status "pending". -/
theorem loop_pending_invariant (inp : LoopInputs) (aid : AgentId) (an : String)
    (rag : List RAGDocument) : PendingInvariant (run_agent_loop inp aid an rag) := by
  rw [run_agent_loop]
  cases hloop : loopGo inp aid inp.max_iterations 0
      ({ role := "system", content := inp.system_prompt } ::
        inp.history ++ [{ role := "user", content := inp.user_message }]) [] [] with
  | error e => exact trivial
  | ok out =>
      have := loopGo_pending_inv inp aid inp.max_iterations 0 _ [] [] out rfl hloop
      simpa [PendingInvariant] using this
